import Mathlib

/-!
# Reverse proxy `main.go`: identity generators and request rewriting

A shallow embedding of `src/main.go`.

Conventions of the embedding.

* A Go `string` is a Lean `String`; the byte tests of the Go library are
  made on the character codes (all the bytes the program compares against
  are ASCII).
* A Go run-time panic is an explicit result (`Outcome.panicked`), so a
  function that panics is told apart from one that returns.
* The pseudo-random generators are seeded from the clock; the value they
  hand out is a parameter of the functions that draw it (`u` for
  `r.Uint32()`, `draw` for the value reduced by `r.Intn`).
* `uint32` values are natural numbers reduced modulo `2 ^ 32` where the Go
  operation wraps.
* The Go standard library functions the program calls (`strings`,
  `net/textproto`, `net/http`, `net`, `encoding/binary`,
  `net/http/httputil`) are embedded next to the program, under their Go
  names.
-/

namespace Proxy

/-! ## Go run-time results -/

/-- Run-time panics the embedded code can raise. -/
inductive Panic where
  | integerDivideByZero
  | negativeShiftAmount
  | indexOutOfRange
  | invalidArgumentToIntn
  deriving DecidableEq

/-- Result of running a Go function: it returns a value or it panics. -/
inductive Outcome (α : Type) where
  | ret (a : α)
  | panicked (p : Panic)
  deriving DecidableEq

/-! ## Package `strings` -/

/-- Go `strings.HasPrefix(s, pre)`. -/
def HasPrefix (s pre : String) : Bool :=
  pre.data.isPrefixOf s.data

/-- Replacement of the first occurrence of `old` in a character list. -/
def replaceFirst (old new : List Char) : List Char → List Char
  | [] => if old.isEmpty then new else []
  | c :: cs =>
    if old.isPrefixOf (c :: cs) then new ++ (c :: cs).drop old.length
    else c :: replaceFirst old new cs

/-- Go `strings.Replace(s, old, new, 1)`: only the first occurrence of
`old` is replaced. -/
def ReplaceOnce (s old new : String) : String :=
  String.mk (replaceFirst old.data new.data s.data)

/-! ## Package `net/textproto` and `net/http`: header maps -/

/-- Go `validHeaderFieldByte`: the byte is an RFC 7230 token character
(digits, letters and the fifteen punctuation marks of a token). -/
def validHeaderFieldByte (c : Char) : Bool :=
  let n := c.toNat
  (decide (48 ≤ n) && decide (n ≤ 57)) || (decide (65 ≤ n) && decide (n ≤ 90))
    || (decide (97 ≤ n) && decide (n ≤ 122))
    || [33, 35, 36, 37, 38, 39, 42, 43, 45, 46, 94, 95, 96, 124, 126].contains n

/-- The canonicalising loop of Go `canonicalMIMEHeaderKey`: the first letter
and every letter after a dash are upper-cased, the others lower-cased. -/
def canonicalChars : Bool → List Char → List Char
  | _, [] => []
  | upper, c :: cs =>
    let c1 := if upper then c.toUpper else c.toLower
    c1 :: canonicalChars (c1 == '-') cs

/-- Go `textproto.CanonicalMIMEHeaderKey`: a key made of token characters is
put in canonical form; a key with any other byte is returned unchanged. -/
def CanonicalMIMEHeaderKey (s : String) : String :=
  if s.data.all validHeaderFieldByte then String.mk (canonicalChars true s.data) else s

/-- Go `http.Header`, a `map[string][]string`: `none` is an absent key. -/
def Header : Type := String → Option (List String)

namespace Header

/-- The empty header map. -/
def empty : Header := fun _ => none

/-- Go `Header.Set`: the values of the canonical key are replaced by the
single value. -/
def Set (h : Header) (key value : String) : Header :=
  fun k => if k = CanonicalMIMEHeaderKey key then some [value] else h k

/-- Go `Header.Del`: the canonical key is deleted. -/
def Del (h : Header) (key : String) : Header :=
  fun k => if k = CanonicalMIMEHeaderKey key then none else h k

/-- Go `Header.Add`: the value is appended to the values of the canonical
key. -/
def Add (h : Header) (key value : String) : Header :=
  fun k => if k = CanonicalMIMEHeaderKey key then some ((h k).getD [] ++ [value]) else h k

/-- The header map the HTTP server builds from the header lines of a
request, read in order: every field name is stored under its canonical
key. -/
def ofFields (fields : List (String × String)) : Header :=
  fields.foldl (fun h f => h.Add f.1 f.2) empty

end Header

/-- Two header names are the same name up to ASCII letter case. -/
def sameHeaderName (a b : String) : Prop :=
  a.data.map Char.toLower = b.data.map Char.toLower

instance (a b : String) : Decidable (sameHeaderName a b) := by
  unfold sameHeaderName; exact inferInstance

/-! ## The User-Agent corpus (`main.go` lines 45-100) -/

/-- The package-level list `userAgents`. -/
def userAgents : List String := [
  "Mozilla/5.0 (Windows NT 10.0; Win64; x64) AppleWebKit/537.36 (KHTML, like Gecko) Chrome/124.0.0.0 Safari/537.36",
  "Mozilla/5.0 (Windows NT 10.0; WOW64) AppleWebKit/537.36 (KHTML, like Gecko) Chrome/123.0.0.0 Safari/537.36",
  "Mozilla/5.0 (Windows NT 10.0; Win64; x64) AppleWebKit/537.36 (KHTML, like Gecko) Chrome/122.0.0.0 Safari/537.36 Edg/122.0.2365.52",
  "Mozilla/5.0 (Windows NT 11.0; Win64; x64) AppleWebKit/537.36 (KHTML, like Gecko) Chrome/124.0.0.0 Safari/537.36",
  "Mozilla/5.0 (Windows NT 10.0; Win64; x64; rv:125.0) Gecko/20100101 Firefox/125.0",
  "Mozilla/5.0 (Windows NT 10.0; Win64; x64; rv:124.0) Gecko/20100101 Firefox/124.0",
  "Mozilla/5.0 (Windows NT 11.0; Win64; x64; rv:125.0) Gecko/20100101 Firefox/125.0",
  "Mozilla/5.0 (Macintosh; Intel Mac OS X 10_15_7) AppleWebKit/605.1.15 (KHTML, like Gecko) Version/17.4.1 Safari/605.1.15",
  "Mozilla/5.0 (Macintosh; Intel Mac OS X 10_15_7) AppleWebKit/605.1.15 (KHTML, like Gecko) Version/17.3.1 Safari/605.1.15",
  "Mozilla/5.0 (Macintosh; Intel Mac OS X 14_4_1) AppleWebKit/605.1.15 (KHTML, like Gecko) Version/17.4.1 Safari/605.1.15",
  "Mozilla/5.0 (Macintosh; Intel Mac OS X 10_15_7) AppleWebKit/537.36 (KHTML, like Gecko) Chrome/124.0.0.0 Safari/537.36",
  "Mozilla/5.0 (Macintosh; Intel Mac OS X 10_15_7) AppleWebKit/537.36 (KHTML, like Gecko) Chrome/123.0.0.0 Safari/537.36",
  "Mozilla/5.0 (Macintosh; Arm Mac OS X 14_4_1) AppleWebKit/537.36 (KHTML, like Gecko) Chrome/124.0.0.0 Safari/537.36",
  "Mozilla/5.0 (Linux; Android 14; Pixel 8 Pro) AppleWebKit/537.36 (KHTML, like Gecko) Chrome/124.0.0.0 Mobile Safari/537.36",
  "Mozilla/5.0 (Linux; Android 13; SM-S908B) AppleWebKit/537.36 (KHTML, like Gecko) Chrome/112.0.0.0 Mobile Safari/537.36",
  "Mozilla/5.0 (Linux; Android 12; SM-G991U) AppleWebKit/537.36 (KHTML, like Gecko) Chrome/123.0.0.0 Mobile Safari/537.36",
  "Mozilla/5.0 (Linux; Android 11; Pixel 5) AppleWebKit/537.36 (KHTML, like Gecko) Chrome/90.0.4430.91 Mobile Safari/537.36",
  "Mozilla/5.0 (Linux; Android 10; K) AppleWebKit/537.36 (KHTML, like Gecko) Chrome/123.0.0.0 Mobile Safari/537.36",
  "Mozilla/5.0 (iPhone; CPU iPhone OS 17_4_1 like Mac OS X) AppleWebKit/605.1.15 (KHTML, like Gecko) Version/17.4.1 Mobile/15E148 Safari/604.1",
  "Mozilla/5.0 (iPhone; CPU iPhone OS 17_3_1 like Mac OS X) AppleWebKit/605.1.15 (KHTML, like Gecko) Version/17.3.1 Mobile/15E148 Safari/604.1",
  "Mozilla/5.0 (iPad; CPU OS 17_4_1 like Mac OS X) AppleWebKit/605.1.15 (KHTML, like Gecko) Version/17.4.1 Mobile/15E148 Safari/604.1",
  "Mozilla/5.0 (iPod touch; CPU iPhone OS 14_7_1 like Mac OS X) AppleWebKit/605.1.15 (KHTML, like Gecko) Version/14.1.2 Mobile/15E148 Safari/604.1",
  "Mozilla/5.0 (iPhone; CPU iPhone OS 17_4 like Mac OS X) AppleWebKit/605.1.15 (KHTML, like Gecko) CriOS/124.0.6367.88 Mobile/15E148 Safari/604.1",
  "Mozilla/5.0 (iPhone; CPU iPhone OS 16_6 like Mac OS X) AppleWebKit/605.1.15 (KHTML, like Gecko) CriOS/117.0.5938.108 Mobile/15E148 Safari/604.1",
  "Mozilla/5.0 (iPad; CPU OS 17_4 like Mac OS X) AppleWebKit/605.1.15 (KHTML, like Gecko) CriOS/124.0.6367.88 Mobile/15E148 Safari/604.1"
]

/-- Go `(*rand.Rand).Intn(n)`: panics when `n <= 0`, otherwise returns the
draw reduced into `[0, n)`. -/
def Intn (n : Nat) (draw : Nat) : Outcome Nat :=
  if n = 0 then Outcome.panicked Panic.invalidArgumentToIntn else Outcome.ret (draw % n)

/-- The function `GetRandomUserAgent` (`main.go` lines 87-100); indexing
the list out of range is a panic, as in Go. -/
def GetRandomUserAgent (draw : Nat) : Outcome String :=
  match Intn userAgents.length draw with
  | Outcome.panicked p => Outcome.panicked p
  | Outcome.ret randomIndex =>
    match userAgents[randomIndex]? with
    | some ua => Outcome.ret ua
    | none => Outcome.panicked Panic.indexOutOfRange

/-! ## Package `net`: addresses, masks and CIDR literals

A `net.IP` and a `net.IPMask` are byte slices: lists of numbers below 256.
The nil slice is the empty list. -/

/-- The byte is an ASCII decimal digit. -/
def isDigit (c : Char) : Bool :=
  decide (48 ≤ c.toNat) && decide (c.toNat ≤ 57)

/-- Loop of Go `dtoi`: decimal digits are accumulated into `n`, `i` counts
them; the result is `none` once the number reaches `0xFFFFFF`. -/
def dtoiLoop (n i : Nat) : List Char → Option (Nat × Nat)
  | [] => some (n, i)
  | c :: cs =>
    if isDigit c then
      let n1 := n * 10 + (c.toNat - 48)
      if n1 ≥ 0xFFFFFF then none else dtoiLoop n1 (i + 1) cs
    else some (n, i)

/-- Go `dtoi`: the decimal number at the start of `s` and the number of
digits read, `none` when there is no digit or the number is too big. -/
def dtoi (s : List Char) : Option (Nat × Nat) :=
  match dtoiLoop 0 0 s with
  | none => none
  | some (n, i) => if i = 0 then none else some (n, i)

/-- Loop of Go `parseIPv4Fields`. `val` and `digLen` describe the octet
being read, `pos` is the number of octets already stored and `fields`
holds them, `first` says that the current byte is the first one and
`prevDot` that the byte before is a dot. -/
def parseIPv4Loop (val digLen pos : Nat) (fields : List Nat) (first prevDot : Bool) :
    List Char → Option (List Nat)
  | [] => if pos < 3 then none else some (fields ++ [val])
  | c :: cs =>
    if isDigit c then
      if digLen = 1 ∧ val = 0 then none
      else
        let val1 := val * 10 + (c.toNat - 48)
        if val1 > 255 then none
        else parseIPv4Loop val1 (digLen + 1) pos fields false false cs
    else if c = '.' then
      if first || cs.isEmpty || prevDot then none
      else if pos = 3 then none
      else parseIPv4Loop 0 0 (pos + 1) (fields ++ [val]) false true cs
    else none

/-- Go `parseIPv4Fields`: four decimal octets separated by dots, each at
most 255 and without a leading zero. -/
def parseIPv4Fields (s : List Char) : Option (List Nat) :=
  parseIPv4Loop 0 0 0 [] true false s

/-- Value of a hexadecimal digit. -/
def hexVal (c : Char) : Option Nat :=
  let n := c.toNat
  if 48 ≤ n ∧ n ≤ 57 then some (n - 48)
  else if 97 ≤ n ∧ n ≤ 102 then some (n - 87)
  else if 65 ≤ n ∧ n ≤ 70 then some (n - 55)
  else none

/-- The inner loop of Go `parseIPv6` reading one group of hexadecimal
digits: the value, the number of digits and the rest of the text; `none`
for a group of more than four digits. -/
def hexGroup (acc off : Nat) : List Char → Option (Nat × Nat × List Char)
  | [] => some (acc, off, [])
  | c :: cs =>
    match hexVal c with
    | none => some (acc, off, c :: cs)
    | some d =>
      let acc1 := acc * 16 + d
      if off > 3 then none
      else if acc1 > 65535 then none
      else hexGroup acc1 (off + 1) cs

/-- The outer loop of Go `parseIPv6` (`for i < 16`). The bytes stored so
far are `ip` (so `i = ip.length`), `ell` is the position of the ellipsis
and `s` the text still to read. Every pass stores two bytes, so the first
argument counts the passes left before `i` reaches 16. The result is the
state at the exit of the loop. -/
def parseIPv6Loop : Nat → List Nat → Option Nat → List Char →
    Option (List Nat × Option Nat × List Char)
  | 0, ip, ell, s => some (ip, ell, s)
  | g + 1, ip, ell, s =>
    match hexGroup 0 0 s with
    | none => none
    | some (acc, off, rest) =>
      if off = 0 then none
      else if rest.head? = some '.' then
        if ell.isNone ∧ ip.length ≠ 12 then none
        else if ip.length + 4 > 16 then none
        else
          match parseIPv4Fields s with
          | none => none
          | some f => some (ip ++ f, ell, [])
      else
        let ip1 := ip ++ [acc / 256, acc % 256]
        match rest with
        | [] => some (ip1, ell, [])
        | c :: afterColon =>
          if c ≠ ':' then none
          else
            match afterColon with
            | [] => none
            | c2 :: afterEllipsis =>
              if c2 = ':' then
                if ell.isSome then none
                else if afterEllipsis.isEmpty then some (ip1, some ip1.length, [])
                else parseIPv6Loop g ip1 (some ip1.length) afterEllipsis
              else parseIPv6Loop g ip1 ell (c2 :: afterEllipsis)

/-- The start of Go `parseIPv6`: a leading `::` is an ellipsis at position
0 and is skipped. The result is the position of the ellipsis, if any, and
the text that follows. -/
def leadingEllipsis : List Char → Option Nat × List Char
  | ':' :: ':' :: r => (some 0, r)
  | s => (none, s)

/-- Go `parseIPv6` as `ParseCIDR` uses it: the sixteen bytes of the
address. A text with a zone (a percent sign) is refused, as `ParseCIDR`
refuses every address with a zone. -/
def parseIPv6 (s : List Char) : Option (List Nat) :=
  if s.contains '%' then none
  else
    let start := leadingEllipsis s
    if start.1.isSome ∧ start.2.isEmpty then some (List.replicate 16 0)
    else
      match parseIPv6Loop 8 [] start.1 start.2 with
      | none => none
      | some (ip, ell, rest) =>
        if ¬ rest.isEmpty then none
        else if ip.length < 16 then
          match ell with
          | none => none
          | some e => some (ip.take e ++ List.replicate (16 - ip.length) 0 ++ ip.drop e)
        else if ell.isSome then none
        else some ip

/-- Go `netip.Addr` as far as `ParseCIDR` reads it: the family and the
bytes. -/
inductive Addr where
  | v4 (b : List Nat)
  | v6 (b : List Nat)
  deriving DecidableEq

/-- Go `Addr.BitLen`. -/
def Addr.BitLen : Addr → Nat
  | Addr.v4 _ => 32
  | Addr.v6 _ => 128

/-- The twelve bytes in front of an IPv4 address in its 16-byte form. -/
def v4InV6Prefix : List Nat := [0, 0, 0, 0, 0, 0, 0, 0, 0, 0, 255, 255]

/-- Go `Addr.As16`. -/
def Addr.As16 : Addr → List Nat
  | Addr.v4 b => v4InV6Prefix ++ b
  | Addr.v6 b => b

/-- The scan of Go `netip.ParseAddr`: the first dot, colon or percent sign
of the text decides how the whole text is parsed. -/
def parseAddrScan (whole : List Char) : List Char → Option Addr
  | [] => none
  | c :: cs =>
    if c = '.' then (parseIPv4Fields whole).map Addr.v4
    else if c = ':' then (parseIPv6 whole).map Addr.v6
    else if c = '%' then none
    else parseAddrScan whole cs

/-- Go `netip.ParseAddr` (without zones). -/
def ParseAddr (s : List Char) : Option Addr :=
  parseAddrScan s s

/-- Go `net.CIDRMask(ones, bits)`. -/
def CIDRMask (ones bits : Nat) : List Nat :=
  if bits ≠ 32 ∧ bits ≠ 128 then []
  else if ones > bits then []
  else
    (List.range (bits / 8)).map fun i =>
      let n := ones - 8 * i
      if n ≥ 8 then 255 else 255 - 255 / 2 ^ n

/-- The number of leading one bits of a byte (at most `fuel` of them). -/
def leadingOnes : Nat → Nat → Nat
  | 0, _ => 0
  | fuel + 1, v => if v / 128 % 2 = 1 then 1 + leadingOnes fuel (v * 2 % 256) else 0

/-- Go `simpleMaskLength`: the number of leading ones of a mask made of
ones followed by zeros, `none` (Go: -1) for any other mask. -/
def simpleMaskLength : List Nat → Option Nat
  | [] => some 0
  | v :: rest =>
    if v = 255 then (simpleMaskLength rest).map (· + 8)
    else
      let k := leadingOnes 8 v
      if v * 2 ^ k % 256 ≠ 0 then none
      else if rest.all (· == 0) then some k
      else none

/-- Go `IPMask.Size`: the number of leading ones and the number of bits,
or `(0, 0)` for a mask that is not in canonical form. -/
def IPMask.Size (m : List Nat) : Nat × Nat :=
  match simpleMaskLength m with
  | none => (0, 0)
  | some ones => (ones, m.length * 8)

/-- Go `IP.Mask`: the bytes of the address under the mask, nil when the
lengths do not fit. -/
def IP.Mask (ip mask : List Nat) : List Nat :=
  let mask1 :=
    if mask.length = 16 ∧ ip.length = 4 ∧ (mask.take 12).all (· == 255) then mask.drop 12
    else mask
  let ip1 :=
    if mask1.length = 4 ∧ ip.length = 16 ∧ ip.take 12 = v4InV6Prefix then ip.drop 12
    else ip
  if ip1.length ≠ mask1.length then []
  else List.zipWith (fun a m => a &&& m) ip1 mask1

/-- Go `IP.To4`: the 4-byte form of an IPv4 address (also of one written
as an IPv4-mapped IPv6 address), `none` (Go: nil) for any other
address. -/
def IP.To4 (ip : List Nat) : Option (List Nat) :=
  if ip.length = 4 then some ip
  else if ip.length = 16 ∧ (ip.take 10).all (· == 0) ∧ ip[10]? = some 255
      ∧ ip[11]? = some 255 then some (ip.drop 12)
  else none

/-- Go `net.IPNet`. -/
structure IPNet where
  IP : List Nat
  Mask : List Nat
  deriving DecidableEq

/-- The text and the index of the first slash of a CIDR literal: what is
before and what is after it. -/
def cutSlash : List Char → Option (List Char × List Char)
  | [] => none
  | c :: cs =>
    if c = '/' then some ([], cs)
    else (cutSlash cs).map fun r => (c :: r.1, r.2)

/-- Go `net.ParseCIDR`: the address of the literal (16 bytes) and its
network (the address under the mask, and the mask); `none` is the
parse error. -/
def ParseCIDR (s : String) : Option (List Nat × IPNet) :=
  match cutSlash s.data with
  | none => none
  | some (addr, mask) =>
    match ParseAddr addr with
    | none => none
    | some ipAddr =>
      match dtoi mask with
      | none => none
      | some (n, i) =>
        if i ≠ mask.length ∨ n > ipAddr.BitLen then none
        else
          let m := CIDRMask n ipAddr.BitLen
          some (ipAddr.As16, { IP := IP.Mask ipAddr.As16 m, Mask := m })

/-- The dotted notation Go `IP.String` gives to an address that has a
4-byte form `p4`. -/
def dottedQuad (p4 : List Nat) : String :=
  String.intercalate "." (p4.map toString)

/-! ## Package `encoding/binary` -/

/-- Go `binary.BigEndian.Uint32`: panics on a slice of less than four
bytes. -/
def BigEndianUint32 : List Nat → Outcome Nat
  | b0 :: b1 :: b2 :: b3 :: _ => Outcome.ret (b3 + b2 * 2 ^ 8 + b1 * 2 ^ 16 + b0 * 2 ^ 24)
  | _ => Outcome.panicked Panic.indexOutOfRange

/-- Go `binary.BigEndian.PutUint32` on a fresh slice of four bytes. -/
def BigEndianPutUint32 (v : Nat) : List Nat :=
  [v / 2 ^ 24 % 256, v / 2 ^ 16 % 256, v / 2 ^ 8 % 256, v % 256]

/-! ## `GenerateRandomIpFromCidr` (`main.go` lines 104-152) -/

/-- The two errors `GenerateRandomIpFromCidr` returns: the wrapped parse
error of `net.ParseCIDR` (line 110) and the IPv4-only error
(line 116). -/
inductive CidrError where
  | invalidFormat (text : String)
  | onlyIPv4
  deriving DecidableEq

/-- The function `GenerateRandomIpFromCidr`; `u` is the value of
`r.Uint32()`. The result is the pair Go returns (address text and
error). -/
def GenerateRandomIpFromCidr (cidr : String) (u : Nat) : Outcome (String × Option CidrError) :=
  match ParseCIDR cidr with
  | none => Outcome.ret ("", some (CidrError.invalidFormat cidr))
  | some (ip, ipnet) =>
    match IP.To4 ip with
    | none => Outcome.ret ("", some CidrError.onlyIPv4)
    | some ipv4 =>
      let prefixLen := (IPMask.Size ipnet.Mask).1
      -- `ip.String()` on an address with the 4-byte form `ipv4`
      if prefixLen = 32 then Outcome.ret (dottedQuad ipv4, none)
      else
        let hostBits : Int := 32 - (prefixLen : Int)
        -- `uint32(1 << hostBits)`: the shift is made on a `uint32`
        if hostBits < 0 then Outcome.panicked Panic.negativeShiftAmount
        else
          let numHosts := 2 ^ hostBits.toNat % 2 ^ 32
          match BigEndianUint32 ((IP.To4 ipnet.IP).getD []) with
          | Outcome.panicked p => Outcome.panicked p
          | Outcome.ret startIpInt =>
            if numHosts = 0 then Outcome.panicked Panic.integerDivideByZero
            else
              let randomOffset := u % 2 ^ 32 % numHosts
              let randomIpInt := (startIpInt + randomOffset) % 2 ^ 32
              Outcome.ret (dottedQuad (BigEndianPutUint32 randomIpInt), none)

/-! ## Requests and the default director of `httputil` -/

/-- Go `url.URL`, the fields the program and the default director use. -/
structure URL where
  Scheme : String
  Host : String
  Path : String
  RawQuery : String

/-- Go `http.Request`: method, URL, host, header map and body (the bytes
of the stream). -/
structure Request where
  Method : String
  URL : URL
  Host : String
  Header : Header
  Body : List Nat

/-- Go `singleJoiningSlash` of `net/http/httputil`. -/
def singleJoiningSlash (a b : String) : String :=
  let aslash := "/".data.isSuffixOf a.data
  let bslash := HasPrefix b "/"
  if aslash && bslash then a ++ String.mk (b.data.drop 1)
  else if !aslash && !bslash then a ++ "/" ++ b
  else a ++ b

/-- The director `httputil.NewSingleHostReverseProxy(target)` installs
(Go `rewriteRequestURL`): scheme and host of the target, the joined path
and the joined query. Toolchains before Go 1.20 also set an absent
`User-Agent` to the empty string here; line 213 of `main.go` overwrites
that header in every case. -/
def defaultDirector (target : URL) (req : Request) : Request :=
  { req with
    URL :=
      { Scheme := target.Scheme
        Host := target.Host
        Path := singleJoiningSlash target.Path req.URL.Path
        RawQuery :=
          if target.RawQuery = "" ∨ req.URL.RawQuery = "" then target.RawQuery ++ req.URL.RawQuery
          else target.RawQuery ++ "&" ++ req.URL.RawQuery } }

/-! ## `handleRequest` (`main.go` lines 155-246) -/

/-- Lines 206-212 of the director: what is done with the result of the
address generator. The header is set when the generator returned an
error, with the address text returned next to the error; nothing is done
when it returned no error. -/
def realIPStep (res : Outcome (String × Option CidrError)) (h : Header) : Outcome Header :=
  match res with
  | Outcome.panicked p => Outcome.panicked p
  | Outcome.ret (randomIP, some _) => Outcome.ret (h.Set "X-Real-IP" randomIP)
  | Outcome.ret (_, none) => Outcome.ret h

/-- The closure assigned to `proxy.Director` (lines 179-216), run on the
outbound copy `req` of the inbound request. `targetURL` is the package
variable, `path` and `apiKey` are the captured locals, `u` and `draw` are
the random values of the two generators. -/
def Director (targetURL : URL) (path apiKey : String) (u draw : Nat) (req : Request) :
    Outcome Request :=
  let req1 := defaultDirector targetURL req
  let url : URL :=
    { req1.URL with
      Scheme := targetURL.Scheme
      Host := targetURL.Host
      Path := targetURL.Path ++ path }
  let h0 := req1.Header.Set "Authorization" ("Bearer " ++ apiKey)
  let h1 := h0.Del "Cf-Connecting-Ip"
  let h2 := h1.Del "Cf-Ipcountry"
  let h3 := h2.Del "Cf-Visitor"
  let h4 := h3.Del "X-Forwarded-Proto"
  let h5 := h4.Del "X-Real-Ip"
  let h6 := h5.Del "X-Forwarded-For"
  let h7 := h6.Del "X-Forwarded-Port"
  let h8 := h7.Del "X-Stainless-Arch"
  let h9 := h8.Del "X-Stainless-Package-Version"
  let h10 := h9.Del "X-Direct-Url"
  let h11 := h10.Del "X-Middleware-Subrequest"
  let h12 := h11.Del "X-Stainless-Runtime"
  let h13 := h12.Del "X-Stainless-Lang"
  match realIPStep (GenerateRandomIpFromCidr "32.250.0.0/14" u) h13 with
  | Outcome.panicked p => Outcome.panicked p
  | Outcome.ret h14 =>
    match GetRandomUserAgent draw with
    | Outcome.panicked p => Outcome.panicked p
    | Outcome.ret ua =>
      Outcome.ret { req1 with URL := url, Host := targetURL.Host, Header := h14.Set "User-Agent" ua }

/-- What `handleRequest` does with a request: it answers itself with a
status and a body, or it hands the request the director produced to the
reverse proxy for forwarding. -/
inductive Handled where
  | replied (status : Nat) (body : String)
  | forwarded (outreq : Request)

/-- The function `handleRequest`. `proxy.ServeHTTP` runs the director on a
copy of the inbound request `r`; the result `forwarded` carries that copy
as the director leaves it. -/
def handleRequest (targetURL : URL) (r : Request) (u draw : Nat) : Outcome Handled :=
  let path := r.URL.Path
  if !HasPrefix path "/v1" then Outcome.ret (Handled.replied 200 "OK")
  else
    let path1 := ReplaceOnce path "/v1" ""
    let apiKey := ""
    match Director targetURL path1 apiKey u draw r with
    | Outcome.panicked p => Outcome.panicked p
    | Outcome.ret outreq => Outcome.ret (Handled.forwarded outreq)

/-! ## Definitions used to state and prove the properties -/

/-- The thirteen deletions of the director, in the order of the source. -/
def stripped (h : Header) : Header :=
  (((((((((((((h.Del "Cf-Connecting-Ip").Del "Cf-Ipcountry").Del "Cf-Visitor").Del
    "X-Forwarded-Proto").Del "X-Real-Ip").Del "X-Forwarded-For").Del "X-Forwarded-Port").Del
    "X-Stainless-Arch").Del "X-Stainless-Package-Version").Del "X-Direct-Url").Del
    "X-Middleware-Subrequest").Del "X-Stainless-Runtime").Del "X-Stainless-Lang")

/-- The byte is an ASCII letter. -/
def isLetter (c : Char) : Bool :=
  (decide (65 ≤ c.toNat) && decide (c.toNat ≤ 90)) || (decide (97 ≤ c.toNat) && decide (c.toNat ≤ 122))

/-- The fifty-two ASCII letters. -/
def letters : List Char :=
  (List.range 26).map (fun i => Char.ofNat (65 + i)) ++ (List.range 26).map (fun i => Char.ofNat (97 + i))

/-- The keys the director deletes, in the order of the source. -/
def deletedKeys : List String :=
  ["Cf-Connecting-Ip", "Cf-Ipcountry", "Cf-Visitor", "X-Forwarded-Proto", "X-Real-Ip",
    "X-Forwarded-For", "X-Forwarded-Port", "X-Stainless-Arch", "X-Stainless-Package-Version",
    "X-Direct-Url", "X-Middleware-Subrequest", "X-Stainless-Runtime", "X-Stainless-Lang"]

/-- The network address of an IPv4 block as a number: the address with
its `32 - p` host bits zeroed. -/
def networkAddress (a b c d p : Nat) : Nat :=
  (d + c * 2 ^ 8 + b * 2 ^ 16 + a * 2 ^ 24) / 2 ^ (32 - p) * 2 ^ (32 - p)

/-- The upstream target the program uses by default: `defaultOpenAIURL`
(`https://api.deepinfra.com/v1/openai`) as `url.Parse` reads it. -/
def defaultTarget : URL :=
  { Scheme := "https", Host := "api.deepinfra.com", Path := "/v1/openai", RawQuery := "" }

/-- A sample inbound request for the given path: a `POST` whose header
lines are written in several letter cases. -/
def sampleRequest (path : String) : Request :=
  { Method := "POST"
    URL := { Scheme := "http", Host := "localhost:8080", Path := path, RawQuery := "stream=1" }
    Host := "localhost:8080"
    Header := Header.ofFields [("x-forwarded-for", "203.0.113.9"),
      ("CF-Connecting-IP", "203.0.113.9"), ("authorization", "Bearer client-key"),
      ("Accept", "application/json"), ("X-REAL-IP", "203.0.113.9")]
    Body := [123, 125] }

/-! ## Lemmas -/

theorem parseCIDR_configured :
    ParseCIDR "32.250.0.0/14" =
      some ([0, 0, 0, 0, 0, 0, 0, 0, 0, 0, 255, 255, 32, 250, 0, 0],
        { IP := [32, 248, 0, 0], Mask := [255, 252, 0, 0] }) := by
  decide

theorem generate_configured (u : Nat) :
    GenerateRandomIpFromCidr "32.250.0.0/14" u =
      Outcome.ret (dottedQuad (BigEndianPutUint32 (553123840 + u % 2 ^ 32 % 2 ^ 18)), none) := by
  have h1 : IP.To4 [0, 0, 0, 0, 0, 0, 0, 0, 0, 0, 255, 255, 32, 250, 0, 0] = some [32, 250, 0, 0] := by
    decide
  have h2 : IPMask.Size [255, 252, 0, 0] = (14, 32) := by decide
  have h3 : IP.To4 [32, 248, 0, 0] = some [32, 248, 0, 0] := by decide
  have h4 : (553123840 + u % 4294967296 % 262144) % 4294967296
      = 553123840 + u % 4294967296 % 262144 := by
    omega
  simp only [GenerateRandomIpFromCidr, parseCIDR_configured, h1, h2, h3]
  simp [BigEndianUint32, h4]

theorem userAgents_length : userAgents.length = 25 := by decide

theorem getRandomUserAgent_ret (draw : Nat) :
    ∃ (h : draw % userAgents.length < userAgents.length),
      GetRandomUserAgent draw = Outcome.ret (userAgents.get ⟨draw % userAgents.length, h⟩) := by
  have hlt : draw % userAgents.length < userAgents.length :=
    Nat.mod_lt _ (by rw [userAgents_length]; decide)
  refine ⟨hlt, ?_⟩
  have hne : userAgents.length ≠ 0 := by rw [userAgents_length]; decide
  simp only [GetRandomUserAgent, Intn, hne, if_false]
  rw [List.getElem?_eq_getElem hlt]
  rfl

theorem getRandomUserAgent_mem (draw : Nat) :
    ∃ ua, ua ∈ userAgents ∧ GetRandomUserAgent draw = Outcome.ret ua := by
  obtain ⟨h, he⟩ := getRandomUserAgent_ret draw
  exact ⟨_, List.get_mem _ _ _, he⟩

theorem director_ret (targetURL : URL) (path apiKey : String) (u draw : Nat) (req : Request) :
    ∃ ua, ua ∈ userAgents ∧
      Director targetURL path apiKey u draw req =
        Outcome.ret
          { Method := req.Method
            URL :=
              { Scheme := targetURL.Scheme
                Host := targetURL.Host
                Path := targetURL.Path ++ path
                RawQuery := (defaultDirector targetURL req).URL.RawQuery }
            Host := targetURL.Host
            Header :=
              (stripped (req.Header.Set "Authorization" ("Bearer " ++ apiKey))).Set "User-Agent" ua
            Body := req.Body } := by
  obtain ⟨ua, hmem, hua⟩ := getRandomUserAgent_mem draw
  refine ⟨ua, hmem, ?_⟩
  simp only [Director, generate_configured, realIPStep, hua]
  rfl


theorem mem_letters (c : Char) (h : isLetter c = true) : c ∈ letters := by
  have hc : Char.ofNat c.toNat = c := Char.ofNat_toNat c
  simp only [isLetter, Bool.or_eq_true, Bool.and_eq_true, decide_eq_true_eq] at h
  rw [← hc]
  generalize c.toNat = n at h
  rcases h with ⟨h1, h2⟩ | ⟨h1, h2⟩ <;> interval_cases n <;> decide

theorem toLower_of_not_letter (c : Char) (h : isLetter c = false) : c.toLower = c := by
  simp only [isLetter, Bool.or_eq_false_iff, Bool.and_eq_false_iff, decide_eq_false_iff_not] at h
  have : ¬ (c.toNat ≥ 65 ∧ c.toNat ≤ 90) := by omega
  simp [Char.toLower, this]

theorem toUpper_of_not_letter (c : Char) (h : isLetter c = false) : c.toUpper = c := by
  simp only [isLetter, Bool.or_eq_false_iff, Bool.and_eq_false_iff, decide_eq_false_iff_not] at h
  have : ¬ (c.toNat ≥ 97 ∧ c.toNat ≤ 122) := by omega
  simp [Char.toUpper, this]

theorem letters_facts :
    ∀ a ∈ letters, isLetter a.toLower = true ∧ isLetter a.toUpper = true ∧
      validHeaderFieldByte a = true ∧
      validHeaderFieldByte a.toLower = true ∧ validHeaderFieldByte a.toUpper = true ∧
      a.toLower.toLower = a.toLower ∧ a.toUpper.toLower = a.toLower ∧
      ∀ b ∈ letters, a.toLower = b.toLower → a.toUpper = b.toUpper := by
  decide


theorem toLower_toLower (c : Char) : c.toLower.toLower = c.toLower := by
  cases h : isLetter c
  · rw [toLower_of_not_letter c h, toLower_of_not_letter c h]
  · exact (letters_facts c (mem_letters c h)).2.2.2.2.2.1

theorem toUpper_toLower (c : Char) : c.toUpper.toLower = c.toLower := by
  cases h : isLetter c
  · rw [toUpper_of_not_letter c h]
  · exact (letters_facts c (mem_letters c h)).2.2.2.2.2.2.1

theorem valid_toLower (c : Char) : validHeaderFieldByte c.toLower = validHeaderFieldByte c := by
  cases h : isLetter c
  · rw [toLower_of_not_letter c h]
  · have hf := letters_facts c (mem_letters c h)
    rw [hf.2.2.1, hf.2.2.2.1]

theorem valid_toUpper (c : Char) : validHeaderFieldByte c.toUpper = validHeaderFieldByte c := by
  cases h : isLetter c
  · rw [toUpper_of_not_letter c h]
  · have hf := letters_facts c (mem_letters c h)
    rw [hf.2.2.1, hf.2.2.2.2.1]

theorem toUpper_eq_of_toLower_eq (a b : Char) (h : a.toLower = b.toLower) :
    a.toUpper = b.toUpper := by
  cases ha : isLetter a <;> cases hb : isLetter b
  · rw [toLower_of_not_letter a ha, toLower_of_not_letter b hb] at h
    rw [h]
  · rw [toLower_of_not_letter a ha] at h
    have := (letters_facts b (mem_letters b hb)).1
    rw [← h, ha] at this
    exact absurd this (by decide)
  · rw [toLower_of_not_letter b hb] at h
    have := (letters_facts a (mem_letters a ha)).1
    rw [h, hb] at this
    exact absurd this (by decide)
  · exact (letters_facts a (mem_letters a ha)).2.2.2.2.2.2.2 b (mem_letters b hb) h

/-- The canonical form of a key depends only on its letters up to case. -/
theorem canonicalChars_congr (l1 l2 : List Char) (up : Bool)
    (h : l1.map Char.toLower = l2.map Char.toLower) :
    canonicalChars up l1 = canonicalChars up l2 := by
  induction l1 generalizing l2 up with
  | nil =>
    cases l2 with
    | nil => rfl
    | cons b bs => simp at h
  | cons a as ih =>
    cases l2 with
    | nil => simp at h
    | cons b bs =>
      simp only [List.map_cons, List.cons.injEq] at h
      have hu := toUpper_eq_of_toLower_eq a b h.1
      simp only [canonicalChars, hu, h.1]
      rw [ih bs _ h.2]

theorem canonicalChars_map_toLower (l : List Char) (up : Bool) :
    (canonicalChars up l).map Char.toLower = l.map Char.toLower := by
  induction l generalizing up with
  | nil => rfl
  | cons a as ih =>
    simp only [canonicalChars, List.map_cons, ih]
    cases up <;> simp [toLower_toLower, toUpper_toLower]

theorem canonicalChars_valid (l : List Char) (up : Bool) :
    (canonicalChars up l).all validHeaderFieldByte = l.all validHeaderFieldByte := by
  induction l generalizing up with
  | nil => rfl
  | cons a as ih =>
    simp only [canonicalChars, List.all_cons, ih]
    cases up <;> simp [valid_toLower, valid_toUpper]

theorem all_valid_of_map_toLower (l1 l2 : List Char)
    (h : l1.map Char.toLower = l2.map Char.toLower) :
    l1.all validHeaderFieldByte = l2.all validHeaderFieldByte := by
  induction l1 generalizing l2 with
  | nil =>
    cases l2 with
    | nil => rfl
    | cons b bs => simp at h
  | cons a as ih =>
    cases l2 with
    | nil => simp at h
    | cons b bs =>
      simp only [List.map_cons, List.cons.injEq] at h
      have hv : validHeaderFieldByte a = validHeaderFieldByte b := by
        rw [← valid_toLower a, ← valid_toLower b, h.1]
      simp only [List.all_cons, hv, ih bs h.2]

/-- Go `CanonicalMIMEHeaderKey` is idempotent. -/
theorem canonicalMIMEHeaderKey_idem (s : String) :
    CanonicalMIMEHeaderKey (CanonicalMIMEHeaderKey s) = CanonicalMIMEHeaderKey s := by
  unfold CanonicalMIMEHeaderKey
  by_cases hv : s.data.all validHeaderFieldByte = true
  · simp only [hv, if_true, canonicalChars_valid]
    congr 1
    exact canonicalChars_congr _ _ _ (canonicalChars_map_toLower _ _)
  · rw [if_neg hv, if_neg hv]

/-- A key in canonical form that is, up to letter case, a canonical name
made of token characters is that name. -/
theorem eq_of_sameHeaderName (k n : String) (hk : CanonicalMIMEHeaderKey k = k)
    (hn : CanonicalMIMEHeaderKey n = n) (hv : n.data.all validHeaderFieldByte = true)
    (h : sameHeaderName k n) : k = n := by
  have hkv : k.data.all validHeaderFieldByte = true := by
    rw [all_valid_of_map_toLower _ _ h]; exact hv
  unfold CanonicalMIMEHeaderKey at hk hn
  simp only [hkv, hv, if_true] at hk hn
  rw [← hk, ← hn]
  congr 1
  exact canonicalChars_congr _ _ _ h

/-- Every key of a header map built from header lines is in canonical
form. -/
theorem ofFields_canonical (fields : List (String × String)) (k : String)
    (h : Header.ofFields fields k ≠ none) : CanonicalMIMEHeaderKey k = k := by
  unfold Header.ofFields at h
  have key : ∀ (fs : List (String × String)) (h0 : Header),
      (∀ k, h0 k ≠ none → CanonicalMIMEHeaderKey k = k) →
      ∀ k, fs.foldl (fun h f => h.Add f.1 f.2) h0 k ≠ none → CanonicalMIMEHeaderKey k = k := by
    intro fs
    induction fs with
    | nil => intro h0 hh k hk; exact hh k hk
    | cons f fs ih =>
      intro h0 hh k hk
      refine ih (h0.Add f.1 f.2) ?_ k hk
      intro k1 hk1
      unfold Header.Add at hk1
      by_cases he : k1 = CanonicalMIMEHeaderKey f.1
      · rw [he]; exact canonicalMIMEHeaderKey_idem _
      · simp only [he, if_false] at hk1
        exact hh k1 hk1
  exact key fields Header.empty (fun k hk => absurd rfl hk) k h


theorem canonical_literals :
    CanonicalMIMEHeaderKey "Cf-Connecting-Ip" = "Cf-Connecting-Ip" ∧
    CanonicalMIMEHeaderKey "Cf-Ipcountry" = "Cf-Ipcountry" ∧
    CanonicalMIMEHeaderKey "Cf-Visitor" = "Cf-Visitor" ∧
    CanonicalMIMEHeaderKey "X-Forwarded-Proto" = "X-Forwarded-Proto" ∧
    CanonicalMIMEHeaderKey "X-Real-Ip" = "X-Real-Ip" ∧
    CanonicalMIMEHeaderKey "X-Forwarded-For" = "X-Forwarded-For" ∧
    CanonicalMIMEHeaderKey "X-Forwarded-Port" = "X-Forwarded-Port" ∧
    CanonicalMIMEHeaderKey "X-Stainless-Arch" = "X-Stainless-Arch" ∧
    CanonicalMIMEHeaderKey "X-Stainless-Package-Version" = "X-Stainless-Package-Version" ∧
    CanonicalMIMEHeaderKey "X-Direct-Url" = "X-Direct-Url" ∧
    CanonicalMIMEHeaderKey "X-Middleware-Subrequest" = "X-Middleware-Subrequest" ∧
    CanonicalMIMEHeaderKey "X-Stainless-Runtime" = "X-Stainless-Runtime" ∧
    CanonicalMIMEHeaderKey "X-Stainless-Lang" = "X-Stainless-Lang" ∧
    CanonicalMIMEHeaderKey "Authorization" = "Authorization" ∧
    CanonicalMIMEHeaderKey "User-Agent" = "User-Agent" ∧
    CanonicalMIMEHeaderKey "X-Real-IP" = "X-Real-Ip" := by
  decide

theorem foldl_del_apply (keys : List String) (h : Header) (k : String) :
    keys.foldl Header.Del h k = if k ∈ keys.map CanonicalMIMEHeaderKey then none else h k := by
  induction keys generalizing h with
  | nil => simp
  | cons a as ih =>
    rw [List.foldl_cons, ih]
    by_cases h1 : k ∈ as.map CanonicalMIMEHeaderKey
    · simp [h1]
    · by_cases h2 : k = CanonicalMIMEHeaderKey a
      · simp [Header.Del, h2]
      · simp [Header.Del, h1, h2]

theorem stripped_apply (h : Header) (k : String) :
    stripped h k = if k ∈ deletedKeys then none else h k := by
  have h1 : stripped h = deletedKeys.foldl Header.Del h := rfl
  have h2 : deletedKeys.map CanonicalMIMEHeaderKey = deletedKeys := by decide
  rw [h1, foldl_del_apply, h2]

/-- The header map the director leaves, key by key. -/
theorem director_header (h : Header) (apiKey ua k : String) :
    (stripped (h.Set "Authorization" ("Bearer " ++ apiKey))).Set "User-Agent" ua k =
      if k = "User-Agent" then some [ua]
      else if k ∈ deletedKeys then none
      else if k = "Authorization" then some ["Bearer " ++ apiKey]
      else h k := by
  obtain ⟨-, -, -, -, -, -, -, -, -, -, -, -, -, ca, cu, -⟩ := canonical_literals
  simp only [Header.Set, stripped_apply, ca, cu]

theorem replaceFirst_of_isPrefixOf (old new s : List Char) (h : old.isPrefixOf s = true) :
    replaceFirst old new s = new ++ s.drop old.length := by
  cases s with
  | nil =>
    cases old with
    | nil => simp [replaceFirst]
    | cons a as => simp [List.isPrefixOf] at h
  | cons c cs => simp [replaceFirst, h]

theorem hasPrefix_iff (p pre : String) :
    HasPrefix p pre = true ↔ ∃ rest, p = pre ++ rest := by
  unfold HasPrefix
  rw [List.isPrefixOf_iff_prefix]
  constructor
  · rintro ⟨t, ht⟩
    exact ⟨String.mk t, String.ext (by rw [String.data_append, ← ht])⟩
  · rintro ⟨rest, rfl⟩
    exact ⟨rest.data, by rw [String.data_append]⟩

theorem replaceOnce_append (pre rest : String) : ReplaceOnce (pre ++ rest) pre "" = rest := by
  unfold ReplaceOnce
  have h : pre.data.isPrefixOf (pre ++ rest).data = true := by
    rw [List.isPrefixOf_iff_prefix, String.data_append]; exact List.prefix_append _ _
  rw [replaceFirst_of_isPrefixOf _ _ _ h, String.data_append]
  simp

/-- The request `handleRequest` forwards for a path under the prefix. -/
theorem handleRequest_forwarded (targetURL : URL) (r : Request) (u draw : Nat)
    (hp : HasPrefix r.URL.Path "/v1" = true) :
    ∃ ua, ua ∈ userAgents ∧
      handleRequest targetURL r u draw =
        Outcome.ret (Handled.forwarded
          { Method := r.Method
            URL :=
              { Scheme := targetURL.Scheme
                Host := targetURL.Host
                Path := targetURL.Path ++ ReplaceOnce r.URL.Path "/v1" ""
                RawQuery := (defaultDirector targetURL r).URL.RawQuery }
            Host := targetURL.Host
            Header :=
              (stripped (r.Header.Set "Authorization" ("Bearer " ++ ""))).Set "User-Agent" ua
            Body := r.Body }) := by
  obtain ⟨ua, hmem, hd⟩ := director_ret targetURL (ReplaceOnce r.URL.Path "/v1" "") "" u draw r
  refine ⟨ua, hmem, ?_⟩
  simp only [handleRequest, hp, hd]
  rfl


theorem deletedKeys_facts :
    ∀ name ∈ deletedKeys,
      CanonicalMIMEHeaderKey name = name ∧ name.data.all validHeaderFieldByte = true
        ∧ name ∈ deletedKeys ∧ ¬ sameHeaderName "User-Agent" name
        ∧ ¬ sameHeaderName "Authorization" name := by
  decide

/-- The decimal text of an octet is made of digits, and the octet loop of
`parseIPv4Fields` reads it back as the value of the octet. -/
theorem octet_text (n : Nat) (hn : n < 256) :
    (toString n).data.all isDigit = true ∧ (toString n).data.isEmpty = false ∧
      ∀ (pos : Nat) (fields : List Nat) (first pd : Bool) (rest : List Char),
        ∃ dl, parseIPv4Loop 0 0 pos fields first pd ((toString n).data ++ rest)
          = parseIPv4Loop n dl pos fields false false rest := by
  interval_cases n <;> exact ⟨rfl, rfl, fun _ _ _ _ _ => ⟨_, rfl⟩⟩

/-- The decimal text of a prefix length is read back by `dtoi`. -/
theorem dtoi_text (p : Nat) (hp : p ≤ 32) :
    dtoi (toString p).data = some (p, (toString p).data.length) := by
  interval_cases p <;> rfl

theorem digit_facts (c : Char) (h : isDigit c = true) :
    c ≠ '.' ∧ c ≠ ':' ∧ c ≠ '%' ∧ c ≠ '/' := by
  refine ⟨?_, ?_, ?_, ?_⟩ <;> (rintro rfl; exact absurd h (by decide))

theorem cutSlash_append (xs ys : List Char) (h : '/' ∉ xs) :
    cutSlash (xs ++ '/' :: ys) = some (xs, ys) := by
  induction xs with
  | nil => simp [cutSlash]
  | cons c cs ih =>
    simp only [List.mem_cons, not_or] at h
    have hc : c ≠ '/' := fun e => h.1 e.symm
    simp [cutSlash, hc, ih h.2]

theorem parseAddrScan_digits (whole xs rest : List Char) (h : xs.all isDigit = true) :
    parseAddrScan whole (xs ++ '.' :: rest) = (parseIPv4Fields whole).map Addr.v4 := by
  induction xs with
  | nil => simp [parseAddrScan]
  | cons c cs ih =>
    simp only [List.all_cons, Bool.and_eq_true] at h
    obtain ⟨h1, h2, h3, -⟩ := digit_facts c h.1
    simp [parseAddrScan, h1, h2, h3, ih h.2]

theorem parseIPv4Loop_dot (v dl pos : Nat) (fields : List Nat) (rest : List Char)
    (hpos : pos ≠ 3) (hrest : rest.isEmpty = false) :
    parseIPv4Loop v dl pos fields false false ('.' :: rest)
      = parseIPv4Loop 0 0 (pos + 1) (fields ++ [v]) false true rest := by
  have h1 : isDigit '.' = false := by decide
  simp [parseIPv4Loop, h1, hpos, hrest]

theorem not_mem_of_all_digits (xs : List Char) (h : xs.all isDigit = true) : '/' ∉ xs := by
  intro hm
  rw [List.all_eq_true] at h
  exact absurd (h _ hm) (by decide)

theorem dottedQuad_data (a b c d : Nat) :
    (dottedQuad [a, b, c, d]).data =
      (toString a).data ++ '.' :: ((toString b).data ++ '.' :: ((toString c).data
        ++ '.' :: (toString d).data)) := by
  simp [dottedQuad, String.intercalate, String.intercalate.go, String.data_append]

/-- Go `net.ParseCIDR` on the literal written from four octets and a prefix
length of at most 32. -/
theorem parseCIDR_dotted (a b c d p : Nat) (ha : a < 256) (hb : b < 256) (hc : c < 256)
    (hd : d < 256) (hp : p ≤ 32) :
    ParseCIDR (dottedQuad [a, b, c, d] ++ "/" ++ toString p) =
      some (v4InV6Prefix ++ [a, b, c, d],
        { IP := IP.Mask (v4InV6Prefix ++ [a, b, c, d]) (CIDRMask p 32), Mask := CIDRMask p 32 }) := by
  obtain ⟨da, na, pa⟩ := octet_text a ha
  obtain ⟨db, nb, pb⟩ := octet_text b hb
  obtain ⟨dc, nc, pc⟩ := octet_text c hc
  obtain ⟨dd, nd, pd⟩ := octet_text d hd
  have hdata : (dottedQuad [a, b, c, d] ++ "/" ++ toString p).data =
      (dottedQuad [a, b, c, d]).data ++ '/' :: (toString p).data := by
    simp [String.data_append]
  have hnot : '/' ∉ (dottedQuad [a, b, c, d]).data := by
    rw [dottedQuad_data]
    have := not_mem_of_all_digits _ da
    have := not_mem_of_all_digits _ db
    have := not_mem_of_all_digits _ dc
    have := not_mem_of_all_digits _ dd
    simp only [List.mem_append, List.mem_cons, not_or]
    refine ⟨‹_›, by decide, ‹_›, by decide, ‹_›, by decide, ‹_›⟩
  have hfields : parseIPv4Fields (dottedQuad [a, b, c, d]).data = some [a, b, c, d] := by
    rw [dottedQuad_data]
    unfold parseIPv4Fields
    obtain ⟨l1, e1⟩ := pa 0 [] true false
      ('.' :: ((toString b).data ++ '.' :: ((toString c).data ++ '.' :: (toString d).data)))
    rw [e1, parseIPv4Loop_dot _ _ _ _ _ (by decide) (by simp)]
    obtain ⟨l2, e2⟩ := pb 1 ([] ++ [a]) false true
      ('.' :: ((toString c).data ++ '.' :: (toString d).data))
    rw [e2, parseIPv4Loop_dot _ _ _ _ _ (by decide) (by simp)]
    obtain ⟨l3, e3⟩ := pc 2 ([] ++ [a] ++ [b]) false true ('.' :: (toString d).data)
    rw [e3, parseIPv4Loop_dot _ _ _ _ _ (by decide) nd]
    obtain ⟨l4, e4⟩ := pd 3 ([] ++ [a] ++ [b] ++ [c]) false true []
    rw [List.append_nil] at e4
    rw [e4]
    simp [parseIPv4Loop]
  have haddr : ParseAddr (dottedQuad [a, b, c, d]).data = some (Addr.v4 [a, b, c, d]) := by
    unfold ParseAddr
    have := parseAddrScan_digits (dottedQuad [a, b, c, d]).data (toString a).data
      ((toString b).data ++ '.' :: ((toString c).data ++ '.' :: (toString d).data)) da
    rw [← dottedQuad_data] at this
    rw [this, hfields]
    rfl
  unfold ParseCIDR
  rw [hdata, cutSlash_append _ _ hnot]
  simp only [haddr, dtoi_text p hp, Addr.BitLen, Addr.As16]
  simp [hp]

theorem land_mask : ∀ x, x < 256 → ∀ j, j < 9 →
    x &&& (255 - 255 / 2 ^ j) = x / 2 ^ (8 - j) * 2 ^ (8 - j) := by
  decide!

theorem parseIPv4Loop_length (s : List Char) :
    ∀ (val dl pos : Nat) (fields : List Nat) (first pd : Bool) (r : List Nat),
      fields.length = pos → pos ≤ 3 →
      parseIPv4Loop val dl pos fields first pd s = some r → r.length = 4 := by
  induction s with
  | nil =>
    intro val dl pos fields first pd r hl hpos h
    simp only [parseIPv4Loop] at h
    split_ifs at h with h1
    cases h
    simp only [List.length_append, List.length_singleton]
    omega
  | cons c cs ih =>
    intro val dl pos fields first pd r hl hpos h
    simp only [parseIPv4Loop] at h
    split_ifs at h with h1 h2 h3 h4 h5 h6
    · exact ih _ _ _ _ _ _ _ hl hpos h
    · refine ih _ _ _ _ _ _ _ ?_ ?_ h
      · simp only [List.length_append, List.length_singleton, hl]
      · omega

theorem parseIPv4Fields_length (s : List Char) (r : List Nat)
    (h : parseIPv4Fields s = some r) : r.length = 4 :=
  parseIPv4Loop_length s 0 0 0 [] true false r rfl (by decide) h

theorem parseIPv6Loop_length (g : Nat) :
    ∀ (ip : List Nat) (ell : Option Nat) (s : List Char) (ip1 : List Nat) (ell1 : Option Nat)
      (rest : List Char),
      ip.length + 2 * g = 16 → (∀ e, ell = some e → e ≤ ip.length) →
      parseIPv6Loop g ip ell s = some (ip1, ell1, rest) →
      ip1.length ≤ 16 ∧ ∀ e, ell1 = some e → e ≤ ip1.length := by
  induction g with
  | zero =>
    intro ip ell s ip1 ell1 rest hl he h
    simp only [parseIPv6Loop, Option.some.injEq, Prod.mk.injEq] at h
    obtain ⟨rfl, rfl, -⟩ := h
    exact ⟨by omega, he⟩
  | succ g ih =>
    intro ip ell s ip1 ell1 rest hl he h
    unfold parseIPv6Loop at h
    have he2 : ∀ acc e, ell = some e → e ≤ (ip ++ [acc / 256, acc % 256]).length := by
      intro acc e hee
      have := he e hee
      simp only [List.length_append]
      omega
    have he3 : ∀ acc e, some (ip ++ [acc / 256, acc % 256]).length = some e
        → e ≤ (ip ++ [acc / 256, acc % 256]).length := by
      intro acc e hee
      cases hee
      exact le_refl _
    have hl2 : ∀ acc, (ip ++ [acc / 256, acc % 256]).length + 2 * g = 16 := by
      intro acc
      simp only [List.length_append, List.length_cons, List.length_nil]
      omega
    have hl3 : ∀ acc, (ip ++ [acc / 256, acc % 256]).length ≤ 16 := by
      intro acc
      have := hl2 acc
      omega
    repeat' split at h
    all_goals try dsimp only at h
    all_goals first
      | exact Option.noConfusion h
      | exact ih _ _ _ _ _ _ (hl2 _) (he2 _) h
      | exact ih _ _ _ _ _ _ (hl2 _) (he3 _) h
      | (simp only [Option.some.injEq, Prod.mk.injEq] at h
         obtain ⟨rfl, rfl, -⟩ := h
         first
           | exact ⟨hl3 _, he2 _⟩
           | exact ⟨hl3 _, he3 _⟩
           | (have hf := parseIPv4Fields_length _ _ (by assumption)
              refine ⟨by simp only [List.length_append]; omega, ?_⟩
              intro e hee
              have := he e hee
              simp only [List.length_append]
              omega))

theorem parseIPv6_length (s : List Char) (r : List Nat) (h : parseIPv6 s = some r) :
    r.length = 16 := by
  unfold parseIPv6 at h
  have hstart : ∀ e, (leadingEllipsis s).1 = some e → e ≤ ([] : List Nat).length := by
    intro e he
    unfold leadingEllipsis at he
    split at he
    · simp only [Option.some.injEq] at he; omega
    · cases he
  generalize leadingEllipsis s = start at h hstart
  split at h
  · cases h
  · dsimp only at h
    split at h
    · cases h
      simp
    · split at h
      · cases h
      · rename_i ip ell rest hloop
        have hinv := parseIPv6Loop_length 8 [] _ _ ip ell rest (by simp) hstart hloop
        repeat' split at h
        all_goals first
          | exact Option.noConfusion h
          | (cases h
             first
               | omega
               | (have hle := hinv.2 _ rfl
                  simp only [List.length_append, List.length_take, List.length_replicate,
                    List.length_drop]
                  omega))

theorem parseAddrScan_length (whole scan : List Char) (x : Addr)
    (h : parseAddrScan whole scan = some x) : x.As16.length = 16 := by
  induction scan with
  | nil => simp [parseAddrScan] at h
  | cons c cs ih =>
    simp only [parseAddrScan] at h
    split_ifs at h with h1 h2 h3
    · cases hf : parseIPv4Fields whole with
      | none => rw [hf] at h; cases h
      | some f =>
        rw [hf] at h
        cases h
        have := parseIPv4Fields_length _ _ hf
        simp [Addr.As16, v4InV6Prefix, this]
    · cases hf : parseIPv6 whole with
      | none => rw [hf] at h; cases h
      | some f =>
        rw [hf] at h
        cases h
        exact parseIPv6_length _ _ hf
    · exact ih h

/-- The address `net.ParseCIDR` returns has sixteen bytes. -/
theorem parseCIDR_length (cidr : String) (ip : List Nat) (ipnet : IPNet)
    (h : ParseCIDR cidr = some (ip, ipnet)) : ip.length = 16 := by
  unfold ParseCIDR at h
  repeat' split at h
  all_goals first
    | exact Option.noConfusion h
    | (simp only [Option.some.injEq, Prod.mk.injEq] at h
       obtain ⟨rfl, -⟩ := h
       exact parseAddrScan_length _ _ _ (by assumption))

/-- An address of sixteen bytes has a 4-byte form exactly when it starts
with the twelve bytes of an IPv4-mapped address. -/
theorem to4_eq_none_iff (ip : List Nat) (h : ip.length = 16) :
    IP.To4 ip = none ↔ ip.take 12 ≠ v4InV6Prefix := by
  match ip, h with
  | [a0, a1, a2, a3, a4, a5, a6, a7, a8, a9, a10, a11, a12, a13, a14, a15], _ =>
    simp only [IP.To4, v4InV6Prefix]
    simp

theorem cidrMask_bytes (p : Nat) (hp : p ≤ 32) :
    CIDRMask p 32 = [255 - 255 / 2 ^ min p 8, 255 - 255 / 2 ^ min (p - 8) 8,
      255 - 255 / 2 ^ min (p - 16) 8, 255 - 255 / 2 ^ min (p - 24) 8] ∧
      IPMask.Size (CIDRMask p 32) = (p, 32) := by
  interval_cases p <;> exact ⟨rfl, rfl⟩

theorem network_number (a b c d p : Nat) (hb : b < 256) (hc : c < 256)
    (hd : d < 256) (hp : p ≤ 32) :
    d / 2 ^ (8 - min (p - 24) 8) * 2 ^ (8 - min (p - 24) 8)
      + c / 2 ^ (8 - min (p - 16) 8) * 2 ^ (8 - min (p - 16) 8) * 2 ^ 8
      + b / 2 ^ (8 - min (p - 8) 8) * 2 ^ (8 - min (p - 8) 8) * 2 ^ 16
      + a / 2 ^ (8 - min p 8) * 2 ^ (8 - min p 8) * 2 ^ 24 = networkAddress a b c d p := by
  unfold networkAddress
  interval_cases p <;> norm_num <;> omega

/-- For every IPv4 literal with a prefix length from 1 to 31 the generator
returns, without error, the dotted form of an address between the network
address and the last address of the block. -/
theorem generate_in_block (a b c d p u : Nat) (ha : a < 256) (hb : b < 256) (hc : c < 256)
    (hd : d < 256) (hp1 : 1 ≤ p) (hp2 : p ≤ 31) :
    ∃ x, networkAddress a b c d p ≤ x ∧ x ≤ networkAddress a b c d p + 2 ^ (32 - p) - 1 ∧
      GenerateRandomIpFromCidr (dottedQuad [a, b, c, d] ++ "/" ++ toString p) u
        = Outcome.ret (dottedQuad (BigEndianPutUint32 x), none) := by
  have hparse := parseCIDR_dotted a b c d p ha hb hc hd (by omega)
  have hto4 : IP.To4 (v4InV6Prefix ++ [a, b, c, d]) = some [a, b, c, d] := by
    simp [IP.To4, v4InV6Prefix]
  have hmask : ∀ m0 m1 m2 m3 : Nat, IP.Mask (v4InV6Prefix ++ [a, b, c, d]) [m0, m1, m2, m3]
      = [a &&& m0, b &&& m1, c &&& m2, d &&& m3] := by
    intro m0 m1 m2 m3
    simp [IP.Mask, v4InV6Prefix]
  have hto4n : ∀ x0 x1 x2 x3 : Nat, IP.To4 [x0, x1, x2, x3] = some [x0, x1, x2, x3] := by
    intro x0 x1 x2 x3
    simp [IP.To4]
  have hm8 : ∀ n : Nat, min n 8 < 9 := fun n => by omega
  obtain ⟨hbytes, hsize⟩ := cidrMask_bytes p (by omega)
  have hnet := network_number a b c d p hb hc hd (by omega)
  have hpow : 2 ^ (32 - p) < 2 ^ 32 := Nat.pow_lt_pow_right (by decide) (by omega)
  have hpos : 0 < 2 ^ (32 - p) := Nat.two_pow_pos _
  have hoff := Nat.mod_lt (u % 2 ^ 32) hpos
  have hle : networkAddress a b c d p + 2 ^ (32 - p) ≤ 2 ^ 32 := by
    unfold networkAddress
    have h1 : d + c * 2 ^ 8 + b * 2 ^ 16 + a * 2 ^ 24 < 2 ^ 32 := by omega
    have h2 : 2 ^ 32 = 2 ^ p * 2 ^ (32 - p) := by
      rw [← Nat.pow_add]; congr 1; omega
    have h3 : (d + c * 2 ^ 8 + b * 2 ^ 16 + a * 2 ^ 24) / 2 ^ (32 - p) < 2 ^ p := by
      rw [Nat.div_lt_iff_lt_mul hpos, ← h2]; exact h1
    calc (d + c * 2 ^ 8 + b * 2 ^ 16 + a * 2 ^ 24) / 2 ^ (32 - p) * 2 ^ (32 - p) + 2 ^ (32 - p)
        = ((d + c * 2 ^ 8 + b * 2 ^ 16 + a * 2 ^ 24) / 2 ^ (32 - p) + 1) * 2 ^ (32 - p) := by ring
      _ ≤ 2 ^ p * 2 ^ (32 - p) := Nat.mul_le_mul_right _ h3
      _ = 2 ^ 32 := h2.symm
  refine ⟨networkAddress a b c d p + u % 2 ^ 32 % 2 ^ (32 - p), Nat.le_add_right _ _, ?_, ?_⟩
  · omega
  · have hne : p ≠ 32 := by omega
    have hint : ¬ ((32 : Int) - (p : Int) < 0) := by omega
    have htn : ((32 : Int) - (p : Int)).toNat = 32 - p := by omega
    have hmod : 2 ^ (32 - p) % 2 ^ 32 = 2 ^ (32 - p) := Nat.mod_eq_of_lt hpow
    have hnz : 2 ^ (32 - p) ≠ 0 := by omega
    have hwrap : (networkAddress a b c d p + u % 2 ^ 32 % 2 ^ (32 - p)) % 2 ^ 32
        = networkAddress a b c d p + u % 2 ^ 32 % 2 ^ (32 - p) := Nat.mod_eq_of_lt (by omega)
    simp only [GenerateRandomIpFromCidr, hparse, hto4, hsize, hne, if_false, hint, htn, hmod,
      hnz]
    rw [hbytes, hmask, hto4n]
    simp only [Option.getD_some, BigEndianUint32, land_mask a ha _ (hm8 _),
      land_mask b hb _ (hm8 _), land_mask c hc _ (hm8 _), land_mask d hd _ (hm8 _), hnet, hwrap]

/-- For every IPv4 literal with prefix length 0 the generator panics: the
number of hosts `uint32(1 << 32)` is 0 and the remainder by it is a
division by zero. -/
theorem generate_prefix_zero (a b c d u : Nat) (ha : a < 256) (hb : b < 256) (hc : c < 256)
    (hd : d < 256) :
    GenerateRandomIpFromCidr (dottedQuad [a, b, c, d] ++ "/0") u
      = Outcome.panicked Panic.integerDivideByZero := by
  have hlit : dottedQuad [a, b, c, d] ++ "/0" = dottedQuad [a, b, c, d] ++ "/" ++ toString 0 := by
    rw [String.append_assoc]
    rfl
  have hparse := parseCIDR_dotted a b c d 0 ha hb hc hd (by decide)
  have hto4 : IP.To4 (v4InV6Prefix ++ [a, b, c, d]) = some [a, b, c, d] := by
    simp [IP.To4, v4InV6Prefix]
  have hmask : CIDRMask 0 32 = [0, 0, 0, 0] := by decide
  have hsize : IPMask.Size [0, 0, 0, 0] = (0, 32) := by decide
  have hnet : IP.Mask (v4InV6Prefix ++ [a, b, c, d]) [0, 0, 0, 0] = [0, 0, 0, 0] := by
    simp [IP.Mask, v4InV6Prefix]
  have hto4n : IP.To4 [0, 0, 0, 0] = some [0, 0, 0, 0] := by decide
  rw [hlit]
  simp only [GenerateRandomIpFromCidr, hparse, hto4, hmask, hsize, hnet, hto4n]
  simp [BigEndianUint32]

/-- When the generator returns an error, the text next to it is empty and
the error is the parse error of a refused literal or the IPv4-only error
of an address without a 4-byte form. -/
theorem generate_error_cases (cidr : String) (u : Nat) (text : String) (e : CidrError)
    (hg : GenerateRandomIpFromCidr cidr u = Outcome.ret (text, some e)) :
    text = "" ∧
      ((ParseCIDR cidr = none ∧ e = CidrError.invalidFormat cidr) ∨
        (∃ ip ipnet, ParseCIDR cidr = some (ip, ipnet) ∧ IP.To4 ip = none
          ∧ e = CidrError.onlyIPv4)) := by
  unfold GenerateRandomIpFromCidr at hg
  split at hg
  · rename_i hnone
    cases hg
    exact ⟨rfl, Or.inl ⟨hnone, rfl⟩⟩
  · rename_i ip ipnet hsome
    split at hg
    · rename_i h4
      cases hg
      exact ⟨rfl, Or.inr ⟨ip, ipnet, hsome, h4, rfl⟩⟩
    · simp only at hg
      split_ifs at hg
      all_goals first | cases hg | (split at hg <;> cases hg)

/-- Whatever keys the inbound header map has, the forwarded request has
nothing under the thirteen keys the director deletes. -/
theorem handleRequest_deletes_keys (targetURL : URL) (r : Request) (u draw : Nat)
    (hp : HasPrefix r.URL.Path "/v1" = true) :
    ∃ out, handleRequest targetURL r u draw = Outcome.ret (Handled.forwarded out) ∧
      ∀ k ∈ deletedKeys, out.Header k = none := by
  obtain ⟨ua, -, hfwd⟩ := handleRequest_forwarded targetURL r u draw hp
  refine ⟨_, hfwd, ?_⟩
  intro k hk
  have hne : k ≠ "User-Agent" := by
    rintro rfl
    exact absurd hk (by decide)
  show (stripped (r.Header.Set "Authorization" ("Bearer " ++ ""))).Set "User-Agent" ua k = none
  rw [director_header, if_neg hne, if_pos hk]

/-- The examples of the specification: `/v1/chat/completions` and `/v1/v1/x`
are forwarded under the base path of the target with one `/v1` removed;
`/health`, `/` and the empty path are answered with 200 and `OK`. -/
theorem handleRequest_examples :
    (∃ out, handleRequest defaultTarget (sampleRequest "/v1/chat/completions") 7 3
        = Outcome.ret (Handled.forwarded out) ∧
      out.URL.Path = "/v1/openai/chat/completions" ∧ out.Host = "api.deepinfra.com") ∧
    (∃ out, handleRequest defaultTarget (sampleRequest "/v1/v1/x") 7 3
        = Outcome.ret (Handled.forwarded out) ∧ out.URL.Path = "/v1/openai/v1/x") ∧
    handleRequest defaultTarget (sampleRequest "/health") 7 3
      = Outcome.ret (Handled.replied 200 "OK") ∧
    handleRequest defaultTarget (sampleRequest "/") 7 3
      = Outcome.ret (Handled.replied 200 "OK") ∧
    handleRequest defaultTarget (sampleRequest "") 7 3
      = Outcome.ret (Handled.replied 200 "OK") := by
  refine ⟨?_, ?_, rfl, rfl, rfl⟩
  · obtain ⟨ua, -, hfwd⟩ :=
      handleRequest_forwarded defaultTarget (sampleRequest "/v1/chat/completions") 7 3 (by decide)
    exact ⟨_, hfwd, rfl, rfl⟩
  · obtain ⟨ua, -, hfwd⟩ :=
      handleRequest_forwarded defaultTarget (sampleRequest "/v1/v1/x") 7 3 (by decide)
    exact ⟨_, hfwd, rfl⟩

/-- The errors of `GenerateRandomIpFromCidr` as the code returns them: the
parse error and an empty text for every literal `net.ParseCIDR` refuses,
the IPv4-only error and an empty text for every valid literal whose
16-byte address does not start with the twelve bytes of an IPv4-mapped
address, and no error for any other literal; the two errors are different
and the text next to an error is always empty. The literals `not-a-cidr`
and `2001:db8::/32` are of the first and of the second kind. -/
theorem generate_errors (cidr : String) (u : Nat) :
    (ParseCIDR cidr = none →
        GenerateRandomIpFromCidr cidr u
          = Outcome.ret ("", some (CidrError.invalidFormat cidr))) ∧
      (∀ ip ipnet, ParseCIDR cidr = some (ip, ipnet) → ip.take 12 ≠ v4InV6Prefix →
        GenerateRandomIpFromCidr cidr u = Outcome.ret ("", some CidrError.onlyIPv4)) ∧
      (∀ text e, GenerateRandomIpFromCidr cidr u = Outcome.ret (text, some e) →
        text = "" ∧
          ((ParseCIDR cidr = none ∧ e = CidrError.invalidFormat cidr) ∨
            (∃ ip ipnet, ParseCIDR cidr = some (ip, ipnet) ∧ ip.take 12 ≠ v4InV6Prefix
              ∧ e = CidrError.onlyIPv4))) ∧
      (∀ text, CidrError.invalidFormat text ≠ CidrError.onlyIPv4) ∧
      GenerateRandomIpFromCidr "not-a-cidr" u
        = Outcome.ret ("", some (CidrError.invalidFormat "not-a-cidr")) ∧
      GenerateRandomIpFromCidr "2001:db8::/32" u = Outcome.ret ("", some CidrError.onlyIPv4) := by
  refine ⟨?_, ?_, ?_, ?_, ?_, ?_⟩
  · intro h
    simp only [GenerateRandomIpFromCidr, h]
  · intro ip ipnet h h12
    have h4 := (to4_eq_none_iff ip (parseCIDR_length cidr ip ipnet h)).2 h12
    simp only [GenerateRandomIpFromCidr, h, h4]
  · intro text e hg
    obtain ⟨ht, hcase⟩ := generate_error_cases cidr u text e hg
    refine ⟨ht, ?_⟩
    rcases hcase with hl | ⟨ip, ipnet, hparse, h4, he⟩
    · exact Or.inl hl
    · exact Or.inr ⟨ip, ipnet, hparse,
        (to4_eq_none_iff ip (parseCIDR_length cidr ip ipnet hparse)).1 h4, he⟩
  · intro text h
    cases h
  · have h : ParseCIDR "not-a-cidr" = none := by decide
    simp only [GenerateRandomIpFromCidr, h]
  · have h : ParseCIDR "2001:db8::/32" = some
        ([32, 1, 13, 184, 0, 0, 0, 0, 0, 0, 0, 0, 0, 0, 0, 0],
          { IP := [32, 1, 13, 184, 0, 0, 0, 0, 0, 0, 0, 0, 0, 0, 0, 0],
            Mask := [255, 255, 255, 255, 0, 0, 0, 0, 0, 0, 0, 0, 0, 0, 0, 0] }) := by
      decide
    have h4 : IP.To4 [32, 1, 13, 184, 0, 0, 0, 0, 0, 0, 0, 0, 0, 0, 0, 0] = none := by decide
    simp only [GenerateRandomIpFromCidr, h, h4]

/-! ## The claims -/

/-- C1. For every inbound request whose path starts with `/v1`, whatever
header lines it carries (the server stores each under its canonical key)
and for every random draw, `handleRequest` forwards the request the director
produced, and that request has no header whose name is, in any letter
case, one of the thirteen stripped names. -/
theorem handleRequest_strips_headers (targetURL : URL) (r : Request)
    (fields : List (String × String)) (u draw : Nat)
    (hp : HasPrefix r.URL.Path "/v1" = true) (hh : r.Header = Header.ofFields fields) :
    ∃ out, handleRequest targetURL r u draw = Outcome.ret (Handled.forwarded out) ∧
      ∀ name ∈ ["Cf-Connecting-Ip", "Cf-Ipcountry", "Cf-Visitor", "X-Forwarded-Proto",
          "X-Real-Ip", "X-Forwarded-For", "X-Forwarded-Port", "X-Stainless-Arch",
          "X-Stainless-Package-Version", "X-Stainless-Runtime", "X-Stainless-Lang",
          "X-Direct-Url", "X-Middleware-Subrequest"],
        ∀ k, sameHeaderName k name → out.Header k = none := by
  obtain ⟨ua, -, hfwd⟩ := handleRequest_forwarded targetURL r u draw hp
  refine ⟨_, hfwd, ?_⟩
  have hsub : ∀ name ∈ ["Cf-Connecting-Ip", "Cf-Ipcountry", "Cf-Visitor", "X-Forwarded-Proto",
      "X-Real-Ip", "X-Forwarded-For", "X-Forwarded-Port", "X-Stainless-Arch",
      "X-Stainless-Package-Version", "X-Stainless-Runtime", "X-Stainless-Lang",
      "X-Direct-Url", "X-Middleware-Subrequest"], name ∈ deletedKeys := by
    decide
  intro name hname k hk
  obtain ⟨hc, hv, hdel, hnu, hna⟩ := deletedKeys_facts name (hsub name hname)
  show (stripped (r.Header.Set "Authorization" ("Bearer " ++ ""))).Set "User-Agent" ua k = none
  rw [director_header]
  have h1 : k ≠ "User-Agent" := fun h => hnu (h ▸ hk)
  have h3 : k ≠ "Authorization" := fun h => hna (h ▸ hk)
  rw [if_neg h1]
  by_cases h2 : k ∈ deletedKeys
  · rw [if_pos h2]
  · rw [if_neg h2, if_neg h3, hh]
    by_contra hne
    have hkc := ofFields_canonical fields k hne
    exact h2 (eq_of_sameHeaderName k name hkc hc hv hk ▸ hdel)

/-- Witness of C1: the sample request to `/v1/chat/completions`, whose header
lines `x-forwarded-for`, `CF-Connecting-IP` and `X-REAL-IP` are not written
in canonical case. -/
theorem handleRequest_strips_headers_witness :
    HasPrefix (sampleRequest "/v1/chat/completions").URL.Path "/v1" = true ∧
      ∃ out, handleRequest defaultTarget (sampleRequest "/v1/chat/completions") 7 3
          = Outcome.ret (Handled.forwarded out) ∧
        ∀ name ∈ ["Cf-Connecting-Ip", "Cf-Ipcountry", "Cf-Visitor", "X-Forwarded-Proto",
          "X-Real-Ip", "X-Forwarded-For", "X-Forwarded-Port", "X-Stainless-Arch",
          "X-Stainless-Package-Version", "X-Stainless-Runtime", "X-Stainless-Lang",
          "X-Direct-Url", "X-Middleware-Subrequest"],
          ∀ k, sameHeaderName k name → out.Header k = none :=
  ⟨by decide,
    handleRequest_strips_headers defaultTarget (sampleRequest "/v1/chat/completions") _ 7 3
      (by decide) rfl⟩

/-- C2. For every inbound path that starts with `/v1` and every upstream
target, the forwarded request has the scheme and the host of the target in
its URL, the host of the target as its `Host`, and as URL path the base
path of the target followed by the inbound path without its leading `/v1`
(one occurrence only), whatever scheme and host the inbound request has. -/
theorem handleRequest_rewrites_url (targetURL : URL) (r : Request) (u draw : Nat)
    (hp : HasPrefix r.URL.Path "/v1" = true) :
    ∃ out rest, r.URL.Path = "/v1" ++ rest ∧
      handleRequest targetURL r u draw = Outcome.ret (Handled.forwarded out) ∧
      out.URL.Scheme = targetURL.Scheme ∧ out.URL.Host = targetURL.Host ∧
      out.Host = targetURL.Host ∧ out.URL.Path = targetURL.Path ++ rest := by
  obtain ⟨ua, -, hfwd⟩ := handleRequest_forwarded targetURL r u draw hp
  obtain ⟨rest, hrest⟩ := (hasPrefix_iff _ _).1 hp
  refine ⟨_, rest, hrest, hfwd, rfl, rfl, rfl, ?_⟩
  show targetURL.Path ++ ReplaceOnce r.URL.Path "/v1" "" = targetURL.Path ++ rest
  rw [hrest, replaceOnce_append]

/-- Witness of C2: the path `/v1/v1/x`, of which one `/v1` only is
removed. -/
theorem handleRequest_rewrites_url_witness :
    HasPrefix (sampleRequest "/v1/v1/x").URL.Path "/v1" = true ∧
      ∃ out rest, (sampleRequest "/v1/v1/x").URL.Path = "/v1" ++ rest ∧
        handleRequest defaultTarget (sampleRequest "/v1/v1/x") 7 3
          = Outcome.ret (Handled.forwarded out) ∧
        out.URL.Scheme = defaultTarget.Scheme ∧ out.URL.Host = defaultTarget.Host ∧
        out.Host = defaultTarget.Host ∧ out.URL.Path = defaultTarget.Path ++ rest :=
  ⟨by decide, handleRequest_rewrites_url defaultTarget (sampleRequest "/v1/v1/x") 7 3 (by decide)⟩

/-- C3. For every inbound request whose path starts with `/v1`, whatever
`Authorization` lines it carries, the forwarded request has under
`Authorization` the single value `Bearer ` followed by the API key, which
is the empty string, and has no other header whose name is `Authorization`
in another letter case. -/
theorem handleRequest_sets_authorization (targetURL : URL) (r : Request)
    (fields : List (String × String)) (u draw : Nat)
    (hp : HasPrefix r.URL.Path "/v1" = true) (hh : r.Header = Header.ofFields fields) :
    ∃ out, handleRequest targetURL r u draw = Outcome.ret (Handled.forwarded out) ∧
      out.Header "Authorization" = some ["Bearer "] ∧
      ∀ k, sameHeaderName k "Authorization" → out.Header k ≠ none → k = "Authorization" := by
  obtain ⟨ua, -, hfwd⟩ := handleRequest_forwarded targetURL r u draw hp
  refine ⟨_, hfwd, ?_, ?_⟩
  · show (stripped (r.Header.Set "Authorization" ("Bearer " ++ ""))).Set "User-Agent" ua
      "Authorization" = some ["Bearer "]
    rw [director_header, if_neg (by decide), if_neg (by decide), if_pos rfl]
    rfl
  · intro k hk hne
    by_contra hka
    apply hne
    show (stripped (r.Header.Set "Authorization" ("Bearer " ++ ""))).Set "User-Agent" ua k = none
    rw [director_header]
    have h1 : k ≠ "User-Agent" := by
      intro h
      rw [h] at hk
      exact absurd hk (by decide)
    rw [if_neg h1, if_neg hka]
    by_cases h2 : k ∈ deletedKeys
    · rw [if_pos h2]
    · rw [if_neg h2, hh]
      by_contra hne2
      have hkc := ofFields_canonical fields k hne2
      exact hka (eq_of_sameHeaderName k "Authorization" hkc (by decide) (by decide) hk)

/-- Witness of C3: the sample request, which carries the line
`authorization: Bearer client-key`. -/
theorem handleRequest_sets_authorization_witness :
    HasPrefix (sampleRequest "/v1/chat/completions").URL.Path "/v1" = true ∧
      ∃ out, handleRequest defaultTarget (sampleRequest "/v1/chat/completions") 7 3
          = Outcome.ret (Handled.forwarded out) ∧
        out.Header "Authorization" = some ["Bearer "] ∧
        ∀ k, sameHeaderName k "Authorization" → out.Header k ≠ none → k = "Authorization" :=
  ⟨by decide,
    handleRequest_sets_authorization defaultTarget (sampleRequest "/v1/chat/completions") _ 7 3
      (by decide) rfl⟩

/-- C4. A request, of any method, is answered with status 200 and body `OK`
exactly when its path does not start with `/v1`, and a request is handed to
the forwarding pipeline exactly when its path starts with `/v1`. -/
theorem handleRequest_routing (targetURL : URL) (r : Request) (u draw : Nat) :
    (handleRequest targetURL r u draw = Outcome.ret (Handled.replied 200 "OK")
        ↔ HasPrefix r.URL.Path "/v1" = false) ∧
      ((∃ out, handleRequest targetURL r u draw = Outcome.ret (Handled.forwarded out))
        ↔ HasPrefix r.URL.Path "/v1" = true) := by
  cases hp : HasPrefix r.URL.Path "/v1"
  · have h : handleRequest targetURL r u draw = Outcome.ret (Handled.replied 200 "OK") := by
      simp [handleRequest, hp]
    refine ⟨⟨fun _ => rfl, fun _ => h⟩, ⟨?_, fun hc => absurd hc (by decide)⟩⟩
    rintro ⟨out, ho⟩
    rw [h] at ho
    cases ho
  · obtain ⟨ua, -, hfwd⟩ := handleRequest_forwarded targetURL r u draw hp
    refine ⟨⟨?_, fun hc => absurd hc (by decide)⟩, ⟨fun _ => rfl, fun _ => ⟨_, hfwd⟩⟩⟩
    intro ho
    rw [hfwd] at ho
    cases ho

/-- C5 (divergence). On the valid IPv4 literal `0.0.0.0/0` the generator
returns nothing: for every random value it panics with a division by
zero. -/
theorem generate_zero_prefix_panics (u : Nat) :
    GenerateRandomIpFromCidr "0.0.0.0/0" u = Outcome.panicked Panic.integerDivideByZero :=
  generate_prefix_zero 0 0 0 0 u (by decide) (by decide) (by decide) (by decide)

/-- C6 (divergence). The literal `::ffff:1.2.3.4/32` is a valid IPv6 CIDR
literal (read by the IPv6 parser, with a mask of 128 bits), and the
generator returns for it an address and no error instead of the IPv4-only
error; so it does for the same address written in hexadecimal groups. On
the other prefix lengths of the literal it returns nothing: it panics
(index out of range below 32, negative shift above 32). -/
theorem generate_mapped_literal :
    ParseAddr "::ffff:1.2.3.4".data
        = some (Addr.v6 [0, 0, 0, 0, 0, 0, 0, 0, 0, 0, 255, 255, 1, 2, 3, 4]) ∧
      (ParseCIDR "::ffff:1.2.3.4/32").map (fun r => IPMask.Size r.2.Mask) = some (32, 128) ∧
      GenerateRandomIpFromCidr "::ffff:1.2.3.4/32" 0 = Outcome.ret ("1.2.3.4", none) ∧
      GenerateRandomIpFromCidr "::ffff:102:304/32" 0 = Outcome.ret ("1.2.3.4", none) ∧
      GenerateRandomIpFromCidr "::ffff:1.2.3.4/16" 0
        = Outcome.panicked Panic.indexOutOfRange ∧
      GenerateRandomIpFromCidr "::ffff:1.2.3.4/96" 0
        = Outcome.panicked Panic.negativeShiftAmount ∧
      GenerateRandomIpFromCidr "::ffff:1.2.3.4/128" 0
        = Outcome.panicked Panic.negativeShiftAmount := by
  decide

/-- C7. For every IPv4 literal `a.b.c.d/32`, `GenerateRandomIpFromCidr`
returns the text `a.b.c.d` and no error, whatever the random value: two
calls on the literal return the same address. -/
theorem generate_single_address (a b c d : Nat) (ha : a < 256) (hb : b < 256) (hc : c < 256)
    (hd : d < 256) :
    (∀ u, GenerateRandomIpFromCidr (dottedQuad [a, b, c, d] ++ "/32") u
        = Outcome.ret (dottedQuad [a, b, c, d], none)) ∧
      ∀ u1 u2, GenerateRandomIpFromCidr (dottedQuad [a, b, c, d] ++ "/32") u1
        = GenerateRandomIpFromCidr (dottedQuad [a, b, c, d] ++ "/32") u2 := by
  have hlit : dottedQuad [a, b, c, d] ++ "/32" = dottedQuad [a, b, c, d] ++ "/" ++ toString 32 := by
    rw [String.append_assoc]
    rfl
  have hparse := parseCIDR_dotted a b c d 32 ha hb hc hd (le_refl 32)
  have hto4 : IP.To4 (v4InV6Prefix ++ [a, b, c, d]) = some [a, b, c, d] := by
    simp [IP.To4, v4InV6Prefix]
  have hsize : IPMask.Size (CIDRMask 32 32) = (32, 32) := by decide
  have key : ∀ u, GenerateRandomIpFromCidr (dottedQuad [a, b, c, d] ++ "/32") u
      = Outcome.ret (dottedQuad [a, b, c, d], none) := by
    intro u
    rw [hlit]
    simp only [GenerateRandomIpFromCidr, hparse, hto4, hsize, if_true]
  exact ⟨key, fun u1 u2 => by rw [key u1, key u2]⟩

theorem generate_single_address_witness :
    (∀ u, GenerateRandomIpFromCidr (dottedQuad [192, 168, 1, 7] ++ "/32") u
        = Outcome.ret (dottedQuad [192, 168, 1, 7], none)) ∧
      ∀ u1 u2, GenerateRandomIpFromCidr (dottedQuad [192, 168, 1, 7] ++ "/32") u1
        = GenerateRandomIpFromCidr (dottedQuad [192, 168, 1, 7] ++ "/32") u2 :=
  generate_single_address 192 168 1 7 (by decide) (by decide) (by decide) (by decide)

/-- C8. The corpus is not empty; for every draw the index `Intn` returns is
within the corpus and `GetRandomUserAgent` returns the corpus entry at that
index; and the values `GetRandomUserAgent` can return are exactly the
entries of the corpus. -/
theorem getRandomUserAgent_range :
    userAgents ≠ [] ∧
      (∀ draw, ∃ i, Intn userAgents.length draw = Outcome.ret i ∧ i < userAgents.length ∧
        ∃ ua, userAgents[i]? = some ua ∧ GetRandomUserAgent draw = Outcome.ret ua) ∧
      ∀ ua, ua ∈ userAgents ↔ ∃ draw, GetRandomUserAgent draw = Outcome.ret ua := by
  refine ⟨by decide, ?_, ?_⟩
  · intro draw
    obtain ⟨hlt, he⟩ := getRandomUserAgent_ret draw
    have hne : userAgents.length ≠ 0 := by rw [userAgents_length]; decide
    refine ⟨draw % userAgents.length, by simp [Intn, hne], hlt, _, ?_, he⟩
    rw [List.getElem?_eq_getElem hlt]
    rfl
  · intro ua
    constructor
    · intro hmem
      obtain ⟨i, hi, hget⟩ := List.getElem_of_mem hmem
      obtain ⟨hlt, he⟩ := getRandomUserAgent_ret i
      refine ⟨i, ?_⟩
      rw [he, ← hget]
      congr 2
      exact Fin.ext (Nat.mod_eq_of_lt hi)
    · rintro ⟨draw, hd⟩
      obtain ⟨ua1, hmem, he⟩ := getRandomUserAgent_mem draw
      rw [he] at hd
      cases hd
      exact hmem

/-- C9. For every inbound request whose path starts with `/v1`, the
forwarded request has the method and the body of the inbound request, and
under every key other than the thirteen stripped names, `Authorization` and
`User-Agent` it has what the inbound request has: the same values in the
same order, and nothing where the inbound request has nothing. -/
theorem handleRequest_preserves_rest (targetURL : URL) (r : Request) (u draw : Nat)
    (hp : HasPrefix r.URL.Path "/v1" = true) :
    ∃ out, handleRequest targetURL r u draw = Outcome.ret (Handled.forwarded out) ∧
      out.Method = r.Method ∧ out.Body = r.Body ∧
      ∀ k, k ∉ ["Cf-Connecting-Ip", "Cf-Ipcountry", "Cf-Visitor", "X-Forwarded-Proto",
          "X-Real-Ip", "X-Forwarded-For", "X-Forwarded-Port", "X-Stainless-Arch",
          "X-Stainless-Package-Version", "X-Stainless-Runtime", "X-Stainless-Lang",
          "X-Direct-Url", "X-Middleware-Subrequest", "Authorization", "User-Agent"] →
        out.Header k = r.Header k := by
  obtain ⟨ua, -, hfwd⟩ := handleRequest_forwarded targetURL r u draw hp
  refine ⟨_, hfwd, rfl, rfl, ?_⟩
  intro k hk
  show (stripped (r.Header.Set "Authorization" ("Bearer " ++ ""))).Set "User-Agent" ua k = r.Header k
  rw [director_header]
  simp only [List.mem_cons, List.mem_singleton, List.not_mem_nil, or_false, not_or] at hk
  have h2 : k ∉ deletedKeys := by
    simp only [deletedKeys, List.mem_cons, List.mem_singleton, List.not_mem_nil, or_false, not_or]
    tauto
  rw [if_neg (by tauto), if_neg h2, if_neg (by tauto)]

/-- Witness of C9: the sample request to `/v1/chat/completions`. -/
theorem handleRequest_preserves_rest_witness :
    HasPrefix (sampleRequest "/v1/chat/completions").URL.Path "/v1" = true ∧
      ∃ out, handleRequest defaultTarget (sampleRequest "/v1/chat/completions") 7 3
          = Outcome.ret (Handled.forwarded out) ∧
        out.Method = (sampleRequest "/v1/chat/completions").Method ∧
        out.Body = (sampleRequest "/v1/chat/completions").Body ∧
        ∀ k, k ∉ ["Cf-Connecting-Ip", "Cf-Ipcountry", "Cf-Visitor", "X-Forwarded-Proto",
            "X-Real-Ip", "X-Forwarded-For", "X-Forwarded-Port", "X-Stainless-Arch",
            "X-Stainless-Package-Version", "X-Stainless-Runtime", "X-Stainless-Lang",
            "X-Direct-Url", "X-Middleware-Subrequest", "Authorization", "User-Agent"] →
          out.Header k = (sampleRequest "/v1/chat/completions").Header k :=
  ⟨by decide,
    handleRequest_preserves_rest defaultTarget (sampleRequest "/v1/chat/completions") 7 3
      (by decide)⟩

/-- C10. The step of the director that handles the generated address sets
`X-Real-IP` only when the generator returned an error, and then to the
empty string that comes with every error; for the configured block
`32.250.0.0/14` the generator returns, for every draw, no error and an
address from `32.248.0.0` to `32.251.255.255`; so no forwarded request has a
header under the key of `X-Real-IP`. -/
theorem realIP_never_set :
    (∀ ip h, realIPStep (Outcome.ret (ip, none)) h = Outcome.ret h) ∧
      (∀ cidr u ip e h, GenerateRandomIpFromCidr cidr u = Outcome.ret (ip, some e) →
        ip = "" ∧ realIPStep (GenerateRandomIpFromCidr cidr u) h
          = Outcome.ret (h.Set "X-Real-IP" "")) ∧
      (∀ u, ∃ b1 b2 b3, 248 ≤ b1 ∧ b1 ≤ 251 ∧ b2 ≤ 255 ∧ b3 ≤ 255 ∧
        GenerateRandomIpFromCidr "32.250.0.0/14" u
          = Outcome.ret (dottedQuad [32, b1, b2, b3], none)) ∧
      ∀ targetURL r u draw, HasPrefix r.URL.Path "/v1" = true →
        ∃ out, handleRequest targetURL r u draw = Outcome.ret (Handled.forwarded out) ∧
          out.Header (CanonicalMIMEHeaderKey "X-Real-IP") = none := by
  refine ⟨fun _ _ => rfl, ?_, ?_, ?_⟩
  · intro cidr u ip e h hg
    have hip : ip = "" := (generate_error_cases cidr u ip e hg).1
    subst hip
    rw [hg]
    exact ⟨rfl, rfl⟩
  · intro u
    refine ⟨(553123840 + u % 2 ^ 32 % 2 ^ 18) / 2 ^ 16 % 256,
      (553123840 + u % 2 ^ 32 % 2 ^ 18) / 2 ^ 8 % 256,
      (553123840 + u % 2 ^ 32 % 2 ^ 18) % 256, ?_, ?_, ?_, ?_, ?_⟩
    · omega
    · omega
    · omega
    · omega
    · rw [generate_configured]
      have : (553123840 + u % 2 ^ 32 % 2 ^ 18) / 2 ^ 24 % 256 = 32 := by omega
      simp only [BigEndianPutUint32, this]
  · intro targetURL r u draw hp
    obtain ⟨ua, -, hfwd⟩ := handleRequest_forwarded targetURL r u draw hp
    refine ⟨_, hfwd, ?_⟩
    show (stripped (r.Header.Set "Authorization" ("Bearer " ++ ""))).Set "User-Agent" ua
      (CanonicalMIMEHeaderKey "X-Real-IP") = none
    rw [director_header, canonical_literals.2.2.2.2.2.2.2.2.2.2.2.2.2.2.2,
      if_neg (by decide), if_pos (by decide)]

/-- Witness of C10: the sample request to `/v1/chat/completions`, which
carries a line `X-REAL-IP`, is forwarded without a header under that
key. -/
theorem realIP_never_set_witness :
    HasPrefix (sampleRequest "/v1/chat/completions").URL.Path "/v1" = true ∧
      ∃ out, handleRequest defaultTarget (sampleRequest "/v1/chat/completions") 7 3
          = Outcome.ret (Handled.forwarded out) ∧
        out.Header (CanonicalMIMEHeaderKey "X-Real-IP") = none :=
  ⟨by decide,
    realIP_never_set.2.2.2 defaultTarget (sampleRequest "/v1/chat/completions") 7 3 (by decide)⟩

end Proxy
